import Mathlib

/-!
# Verification of the evaluation pipeline and scoring engine

Shallow embedding of the scoring engine, response validator, JSON
extraction, generation-client retry loop, performance auditor and
evaluation orchestrator of the repository, together with theorems
settling the specification claims about them.

Numbers are modelled by `ℚ` (the source operates on JS numbers and all
arithmetic appearing in the claims is exact in `ℚ`); strings by
`List Char`; nullable values by `Option`.
-/

namespace MF

/-! ## Scoring engine (src/unnamed/part_000 and part_001)

Both source files define the same `Scores` shape, `avg`, the three
composite-score functions, `calculateOverallScore` and
`computeAllScores`.  They differ only in one comparison inside
`calculateRecommendation` (the PIVOT guard): part_000 uses
`valueScore < 5`, part_001 uses `valueScore <= 5`.  The part_000
variant is embedded as `calculateRecommendation`, the part_001 variant
as `calculateRecommendation'`. -/

/-- The flat map of the 12 optional 1-10 metric scores. -/
structure Scores where
  usability : Option ℚ := none
  value : Option ℚ := none
  features : Option ℚ := none
  polish : Option ℚ := none
  competition : Option ℚ := none
  market : Option ℚ := none
  monetization : Option ℚ := none
  maintenance : Option ℚ := none
  growth : Option ℚ := none
  passion : Option ℚ := none
  learning : Option ℚ := none
  pride : Option ℚ := none
deriving DecidableEq, Repr

/-- The closed five-value recommendation enumeration. -/
inductive Recommendation where
  | invest
  | keep
  | pivot
  | pause
  | drop
deriving DecidableEq, Repr

/-- `avg`: average of the non-null values, null when none are non-null. -/
def avg (values : List (Option ℚ)) : Option ℚ :=
  let valid := values.filterMap id
  if valid.length = 0 then none
  else some (valid.sum / valid.length)

/-- `calculateProductScore`: average of the five product metrics. -/
def calculateProductScore (scores : Scores) : Option ℚ :=
  avg [scores.usability, scores.value, scores.features, scores.polish,
    scores.competition]

/-- `calculateBusinessScore`: average of market, monetization, growth and,
when maintenance is non-null, the inverted value `10 - maintenance`. -/
def calculateBusinessScore (scores : Scores) : Option ℚ :=
  let values := [scores.market, scores.monetization, scores.growth]
  let values :=
    match scores.maintenance with
    | some m => values ++ [some (10 - m)]
    | none => values
  avg values

/-- `calculatePersonalScore`: average of passion, learning, pride. -/
def calculatePersonalScore (scores : Scores) : Option ℚ :=
  avg [scores.passion, scores.learning, scores.pride]

/-- `calculateOverallScore`: weighted blend of the present composite
scores (product 0.5, business 0.3, personal 0.2), each contribution
divided by the total present weight; null when all three are null. -/
def calculateOverallScore (productScore businessScore personalScore : Option ℚ) :
    Option ℚ :=
  let scores : List (ℚ × ℚ) :=
    (match productScore with | some v => [(v, 1/2)] | none => []) ++
    (match businessScore with | some v => [(v, 3/10)] | none => []) ++
    (match personalScore with | some v => [(v, 1/5)] | none => [])
  if scores.length = 0 then none
  else
    let totalWeight := (scores.map Prod.snd).sum
    some ((scores.map (fun s => s.1 * s.2 / totalWeight)).sum)

/-- `calculateRecommendation`, part_000 variant (PIVOT guard uses
`valueScore < 5`). -/
def calculateRecommendation (scores : Scores) : Recommendation :=
  let productScore := calculateProductScore scores
  let businessScore := calculateBusinessScore scores
  let valueScore := scores.value.getD 0
  let maintenanceScore := scores.maintenance.getD 5
  if valueScore ≥ 7 ∧ businessScore.getD 0 ≥ 7 then .invest
  else if valueScore ≤ 4 then .drop
  else if maintenanceScore ≥ 7 ∧ productScore.getD 0 < 6 then .drop
  else if valueScore ≥ 5 ∧ maintenanceScore ≤ 4 then .keep
  else if productScore.getD 0 ≥ 6 ∧ valueScore < 5 then .pivot
  else .pause

/-- `calculateRecommendation`, part_001 variant (PIVOT guard uses
`valueScore <= 5`). -/
def calculateRecommendation' (scores : Scores) : Recommendation :=
  let productScore := calculateProductScore scores
  let businessScore := calculateBusinessScore scores
  let valueScore := scores.value.getD 0
  let maintenanceScore := scores.maintenance.getD 5
  if valueScore ≥ 7 ∧ businessScore.getD 0 ≥ 7 then .invest
  else if valueScore ≤ 4 then .drop
  else if maintenanceScore ≥ 7 ∧ productScore.getD 0 < 6 then .drop
  else if valueScore ≥ 5 ∧ maintenanceScore ≤ 4 then .keep
  else if productScore.getD 0 ≥ 6 ∧ valueScore ≤ 5 then .pivot
  else .pause

/-- The derived composite scores record. -/
structure ComputedScores where
  productScore : Option ℚ
  businessScore : Option ℚ
  personalScore : Option ℚ
  overallScore : Option ℚ
  recommendation : Recommendation
deriving DecidableEq, Repr

/-- `computeAllScores` (part_000 variant of the recommendation). -/
def computeAllScores (scores : Scores) : ComputedScores :=
  let productScore := calculateProductScore scores
  let businessScore := calculateBusinessScore scores
  let personalScore := calculatePersonalScore scores
  let overallScore := calculateOverallScore productScore businessScore personalScore
  let recommendation := calculateRecommendation scores
  { productScore := productScore
    businessScore := businessScore
    personalScore := personalScore
    overallScore := overallScore
    recommendation := recommendation }

/-! ### Specification-side restatements used for the refinement claims -/

/-- The recommendation classifier exactly as the specification words it:
strict precedence, first match wins, with `value` defaulting to 0 and
`maintenance` defaulting to 5. -/
def specRecommendation (scores : Scores) : Recommendation :=
  let value := scores.value.getD 0
  let maintenance := scores.maintenance.getD 5
  let productScore := (calculateProductScore scores).getD 0
  let businessScore := (calculateBusinessScore scores).getD 0
  if value ≥ 7 ∧ businessScore ≥ 7 then .invest
  else if value ≤ 4 ∨ (maintenance ≥ 7 ∧ productScore < 6) then .drop
  else if value ≥ 5 ∧ maintenance ≤ 4 then .keep
  else if productScore ≥ 6 ∧ value < 5 then .pivot
  else .pause

/-- The average as the specification words it: the arithmetic mean of the
non-null entries, null when no entry is non-null. -/
def specAvg (values : List (Option ℚ)) : Option ℚ :=
  let present := values.filterMap id
  if present = [] then none
  else some (present.sum / present.length)

/-- The business score as the specification words it: average of market,
monetization, growth plus, only when maintenance is non-null, the
inverted term `10 - maintenance`. -/
def specBusinessScore (scores : Scores) : Option ℚ :=
  match scores.maintenance with
  | none => specAvg [scores.market, scores.monetization, scores.growth]
  | some m =>
      specAvg [scores.market, scores.monetization, scores.growth, some (10 - m)]

/-- The overall score as the specification words it: base weights
product 0.5, business 0.3, personal 0.2 renormalized to sum to 1 over the
present categories only — that is, the weighted sum divided by the total
present weight; null exactly when all three are null. -/
def specOverallScore (productScore businessScore personalScore : Option ℚ) :
    Option ℚ :=
  let entries : List (ℚ × ℚ) :=
    (match productScore with | some v => [(v, 1/2)] | none => []) ++
    (match businessScore with | some v => [(v, 3/10)] | none => []) ++
    (match personalScore with | some v => [(v, 1/5)] | none => [])
  if entries = [] then none
  else
    some ((entries.map (fun e => e.1 * e.2)).sum / (entries.map Prod.snd).sum)

/-- C1: `calculateRecommendation` evaluates the five rules in strict
precedence order with the first match winning (invest; drop on low value
or high maintenance with weak product; keep; pivot; pause), with `value`
defaulting to 0 and `maintenance` to 5; it is total, the empty scores map
yields drop, and any map with value = 4 yields drop regardless of the
other scores. -/
theorem claim_C1_recommendation_classifier :
    (∀ scores : Scores, calculateRecommendation scores = specRecommendation scores) ∧
    calculateRecommendation {} = .drop ∧
    (∀ scores : Scores, scores.value = some 4 →
      calculateRecommendation scores = .drop) := by
  refine ⟨?_, by norm_num [calculateRecommendation], ?_⟩
  · intro scores
    simp only [calculateRecommendation, specRecommendation]
    by_cases h1 : scores.value.getD 0 ≥ 7 ∧ (calculateBusinessScore scores).getD 0 ≥ 7
    · rw [if_pos h1, if_pos h1]
    · rw [if_neg h1, if_neg h1]
      by_cases h2 : scores.value.getD 0 ≤ 4
      · rw [if_pos h2, if_pos (Or.inl h2)]
      · by_cases h3 : scores.maintenance.getD 5 ≥ 7 ∧
            (calculateProductScore scores).getD 0 < 6
        · rw [if_neg h2, if_pos h3, if_pos (Or.inr h3)]
        · have hor : ¬(scores.value.getD 0 ≤ 4 ∨
              (scores.maintenance.getD 5 ≥ 7 ∧
                (calculateProductScore scores).getD 0 < 6)) := by
            tauto
          rw [if_neg h2, if_neg h3, if_neg hor]
  · intro scores h
    rw [calculateRecommendation]
    norm_num [h]

/-- Witness for C1 at a concrete input: a map with value = 4 and
otherwise perfect scores is still dropped. -/
theorem claim_C1_recommendation_classifier_witness :
    calculateRecommendation
      { usability := some 10, value := some 4, features := some 10,
        polish := some 10, competition := some 10, market := some 10,
        monetization := some 10, maintenance := some 1, growth := some 10 }
      = .drop :=
  claim_C1_recommendation_classifier.2.2 _ rfl

/-- C2: `calculateOverallScore` is the weighted combination of the
non-null composite scores with base weights 0.5/0.3/0.2 renormalized over
the present categories, is null exactly when all three are null, and on
(8, 6, 4) yields 6.6 while on (null, 10, 5) yields 8. -/
theorem claim_C2_overall_score :
    (∀ productScore businessScore personalScore : Option ℚ,
      calculateOverallScore productScore businessScore personalScore =
        specOverallScore productScore businessScore personalScore) ∧
    (∀ productScore businessScore personalScore : Option ℚ,
      calculateOverallScore productScore businessScore personalScore = none ↔
        (productScore = none ∧ businessScore = none ∧ personalScore = none)) ∧
    calculateOverallScore (some 8) (some 6) (some 4) = some (66/10) ∧
    calculateOverallScore none (some 10) (some 5) = some 8 := by
  refine ⟨?_, ?_, by simp only [calculateOverallScore]; norm_num,
    by simp only [calculateOverallScore]; norm_num⟩
  · intro p b s
    rcases p with _ | vp <;> rcases b with _ | vb <;> rcases s with _ | vs <;>
      · simp only [calculateOverallScore, specOverallScore]
        norm_num
        try simp
        try ring
  · intro p b s
    rcases p with _ | vp <;> rcases b with _ | vb <;> rcases s with _ | vs <;>
      simp [calculateOverallScore]

/-- C3: `avg` is the arithmetic mean of the non-null entries (null when
none are present); product and personal scores are the plain averages of
their metric lists; the business score averages market, monetization,
growth plus the inverted maintenance term `10 - maintenance` when
maintenance is present; and the stated concrete business score is 6.5. -/
theorem claim_C3_composite_scores :
    (∀ values : List (Option ℚ), avg values = specAvg values) ∧
    (∀ scores : Scores, calculateProductScore scores =
      specAvg [scores.usability, scores.value, scores.features, scores.polish,
        scores.competition]) ∧
    (∀ scores : Scores, calculatePersonalScore scores =
      specAvg [scores.passion, scores.learning, scores.pride]) ∧
    (∀ scores : Scores, calculateBusinessScore scores = specBusinessScore scores) ∧
    calculateBusinessScore
      { market := some 7, monetization := some 6, growth := some 5,
        maintenance := some 2 } = some (13/2) := by
  have havg : ∀ values : List (Option ℚ), avg values = specAvg values := by
    intro values
    simp [avg, specAvg, List.length_eq_zero]
  refine ⟨havg, fun _ => havg _, fun _ => havg _, ?_,
    by simp [calculateBusinessScore, avg]; norm_num⟩
  intro scores
  cases hm : scores.maintenance <;>
    simp [calculateBusinessScore, specBusinessScore, hm, havg]

/-- C4: the part_000 (`value < 5`) and part_001 (`value <= 5`) variants of
`calculateRecommendation` agree on every scores map whose value metric is
not 5, and there is a scores map with value = 5, maintenance
disqualifying KEEP (maintenance >= 5) and productScore >= 6 on which the
strict variant returns pause while the non-strict variant returns
pivot. -/
theorem claim_C4_pivot_boundary_variants :
    (∀ scores : Scores, scores.value ≠ some 5 →
      calculateRecommendation scores = calculateRecommendation' scores) ∧
    (∃ scores : Scores, scores.value = some 5 ∧ scores.maintenance.getD 5 ≥ 5 ∧
      (calculateProductScore scores).getD 0 ≥ 6 ∧
      calculateRecommendation scores = .pause ∧
      calculateRecommendation' scores = .pivot) := by
  constructor
  · intro scores h
    have hv : scores.value.getD 0 ≠ 5 := by
      cases hsv : scores.value with
      | none => norm_num
      | some x =>
          rw [hsv] at h
          simp only [Option.getD_some]
          intro he
          exact h (by rw [he])
    have hiff : (scores.value.getD 0 < 5) ↔ (scores.value.getD 0 ≤ 5) :=
      ⟨le_of_lt, fun hle => lt_of_le_of_ne hle hv⟩
    simp only [calculateRecommendation, calculateRecommendation', hiff]
  · refine ⟨({ usability := some 7, value := some 5, features := some 7,
               polish := some 7, competition := some 7,
               maintenance := some 5 } : Scores),
      rfl, ?_, ?_, ?_, ?_⟩
    · norm_num
    · simp [calculateProductScore, avg]
      norm_num
    · rw [calculateRecommendation]
      norm_num [calculateProductScore, calculateBusinessScore, avg,
        List.filterMap_cons, List.filterMap_nil]
    · rw [calculateRecommendation']
      norm_num [calculateProductScore, calculateBusinessScore, avg,
        List.filterMap_cons, List.filterMap_nil]

/-- Witness for C4 at a concrete input: on the empty scores map (value
metric absent, hence not 5) the two variants agree. -/
theorem claim_C4_pivot_boundary_variants_witness :
    calculateRecommendation {} = calculateRecommendation' {} :=
  claim_C4_pivot_boundary_variants.1 {} (by simp)

/-! ## JS values (the image of JSON.parse)

`JsValue` models the values the response validator receives: exactly the
values JSON.parse can produce.  Strings are `List Char`; object property
access follows JS semantics (a missing property reads as undefined,
modelled by `none`; with duplicate keys the last one wins). -/

inductive JsValue where
  | null
  | boolean (b : Bool)
  | number (q : ℚ)
  | str (s : List Char)
  | arr (items : List JsValue)
  | obj (fields : List (List Char × JsValue))

/-- JS property read on an object's field list: the last binding of the
key wins, a missing key reads as undefined (`none`). -/
def jsGetFields (fields : List (List Char × JsValue)) (key : List Char) :
    Option JsValue :=
  match fields with
  | [] => none
  | (k, v) :: rest =>
      match jsGetFields rest key with
      | some r => some r
      | none => if k = key then some v else none

/-- JS property read `v[key]` for a string key: only objects carry such
properties among JSON.parse results. -/
def jsGetV : JsValue → List Char → Option JsValue
  | .obj fields, key => jsGetFields fields key
  | _, _ => none

/-- `typeof v === 'object' && v !== null` for a JSON.parse result:
objects and arrays qualify, null is excluded by the explicit null
check that always accompanies the typeof test in the source. -/
def jsIsObjectLike : JsValue → Bool
  | .obj _ => true
  | .arr _ => true
  | _ => false

/-- `typeof v === 'string'` on a property read. -/
def isStringProp (o : Option JsValue) : Bool :=
  match o with
  | some (.str _) => true
  | _ => false

/-! ### Range invariants of the scoring engine -/

/-- A metric slot is in range when its value, if present, lies in 1-10. -/
def okMetric (o : Option ℚ) : Prop := ∀ x ∈ o, 1 ≤ x ∧ x ≤ 10

/-- All twelve metric slots of a scores map are in range. -/
def inRange (scores : Scores) : Prop :=
  okMetric scores.usability ∧ okMetric scores.value ∧ okMetric scores.features ∧
  okMetric scores.polish ∧ okMetric scores.competition ∧ okMetric scores.market ∧
  okMetric scores.monetization ∧ okMetric scores.maintenance ∧
  okMetric scores.growth ∧ okMetric scores.passion ∧ okMetric scores.learning ∧
  okMetric scores.pride

theorem list_sum_le (l : List ℚ) (hi : ℚ) (h : ∀ x ∈ l, x ≤ hi) :
    l.sum ≤ l.length * hi := by
  induction l with
  | nil => simp
  | cons a t ih =>
      simp only [List.sum_cons, List.length_cons]
      have ha := h a (by simp)
      have ht := ih (fun x hx => h x (by simp [hx]))
      push_cast
      linarith

theorem list_le_sum (l : List ℚ) (lo : ℚ) (h : ∀ x ∈ l, lo ≤ x) :
    l.length * lo ≤ l.sum := by
  induction l with
  | nil => simp
  | cons a t ih =>
      simp only [List.sum_cons, List.length_cons]
      have ha := h a (by simp)
      have ht := ih (fun x hx => h x (by simp [hx]))
      push_cast
      linarith

/-- The average of entries that all lie in an interval lies in it too. -/
theorem avg_bounds (lo hi : ℚ) (values : List (Option ℚ))
    (h : ∀ o ∈ values, ∀ x ∈ o, lo ≤ x ∧ x ≤ hi) :
    ∀ x ∈ avg values, lo ≤ x ∧ x ≤ hi := by
  intro x hx
  simp only [avg] at hx
  by_cases hlen : (values.filterMap id).length = 0
  · rw [if_pos hlen] at hx
    exact absurd hx (by simp)
  · rw [if_neg hlen] at hx
    have hx' : (values.filterMap id).sum / ((values.filterMap id).length : ℚ) = x := by
      simpa [Option.mem_def, eq_comm] using hx
    have hpos : (0 : ℚ) < ((values.filterMap id).length : ℚ) := by
      have : 0 < (values.filterMap id).length := Nat.pos_of_ne_zero hlen
      exact_mod_cast this
    have hmem : ∀ y ∈ values.filterMap id, lo ≤ y ∧ y ≤ hi := by
      intro y hy
      rcases List.mem_filterMap.mp hy with ⟨o, ho, hoy⟩
      exact h o ho y (by simpa [Option.mem_def] using hoy)
    have hub := list_sum_le _ hi (fun y hy => (hmem y hy).2)
    have hlb := list_le_sum _ lo (fun y hy => (hmem y hy).1)
    constructor
    · rw [← hx', le_div_iff₀ hpos]
      linarith
    · rw [← hx', div_le_iff₀ hpos]
      linarith

/-- The overall score of composites lying in 0-10 lies in 0-10. -/
theorem overall_bounds (p b s : Option ℚ)
    (hp : ∀ x ∈ p, 0 ≤ x ∧ x ≤ 10)
    (hb : ∀ x ∈ b, 0 ≤ x ∧ x ≤ 10)
    (hs : ∀ x ∈ s, 0 ≤ x ∧ x ≤ 10) :
    ∀ x ∈ calculateOverallScore p b s, 0 ≤ x ∧ x ≤ 10 := by
  intro x hx
  rcases p with _ | vp <;> rcases b with _ | vb <;> rcases s with _ | vs <;>
    simp only [calculateOverallScore] at hx <;> norm_num at hx
  · exact absurd hx (by simp)
  · subst hx
    exact hs vs (by simp)
  · subst hx
    exact hb vb (by simp)
  · obtain ⟨h1, h2⟩ := hb vb (by simp)
    obtain ⟨h3, h4⟩ := hs vs (by simp)
    subst hx
    constructor <;> linarith
  · subst hx
    exact hp vp (by simp)
  · obtain ⟨h1, h2⟩ := hp vp (by simp)
    obtain ⟨h3, h4⟩ := hs vs (by simp)
    subst hx
    constructor <;> linarith
  · obtain ⟨h1, h2⟩ := hp vp (by simp)
    obtain ⟨h3, h4⟩ := hb vb (by simp)
    subst hx
    constructor <;> linarith
  · obtain ⟨h1, h2⟩ := hp vp (by simp)
    obtain ⟨h3, h4⟩ := hb vb (by simp)
    obtain ⟨h5, h6⟩ := hs vs (by simp)
    subst hx
    constructor <;> linarith

/-- C10: for scores maps whose present metrics all lie in 1-10, the
non-null product and personal scores lie in 1-10 and the non-null
business and overall scores lie in 0-10; because of the
`10 - maintenance` inversion the business score reaches 0 on the valid
input with only maintenance = 10 present, and the overall score then
also falls below the metric floor of 1. -/
theorem claim_C10_range_invariant :
    (∀ scores : Scores, inRange scores →
      (∀ x ∈ (computeAllScores scores).productScore, 1 ≤ x ∧ x ≤ 10) ∧
      (∀ x ∈ (computeAllScores scores).personalScore, 1 ≤ x ∧ x ≤ 10) ∧
      (∀ x ∈ (computeAllScores scores).businessScore, 0 ≤ x ∧ x ≤ 10) ∧
      (∀ x ∈ (computeAllScores scores).overallScore, 0 ≤ x ∧ x ≤ 10)) ∧
    inRange ({ maintenance := some 10 } : Scores) ∧
    (computeAllScores { maintenance := some 10 }).businessScore = some 0 ∧
    (computeAllScores { maintenance := some 10 }).overallScore = some 0 := by
  refine ⟨?_, ?_, ?_, ?_⟩
  · intro scores hin
    obtain ⟨h1, h2, h3, h4, h5, h6, h7, h8, h9, h10, h11, h12⟩ := hin
    have hprod : ∀ x ∈ calculateProductScore scores, 1 ≤ x ∧ x ≤ 10 := by
      apply avg_bounds
      intro o ho
      simp only [List.mem_cons, List.not_mem_nil, or_false] at ho
      rcases ho with rfl | rfl | rfl | rfl | rfl <;> assumption
    have hpers : ∀ x ∈ calculatePersonalScore scores, 1 ≤ x ∧ x ≤ 10 := by
      apply avg_bounds
      intro o ho
      simp only [List.mem_cons, List.not_mem_nil, or_false] at ho
      rcases ho with rfl | rfl | rfl <;> assumption
    have hbus : ∀ x ∈ calculateBusinessScore scores, 0 ≤ x ∧ x ≤ 10 := by
      rw [calculateBusinessScore]
      cases hm : scores.maintenance with
      | none =>
          apply avg_bounds
          intro o ho
          simp only [List.mem_cons, List.not_mem_nil, or_false] at ho
          have weak : ∀ o', okMetric o' → ∀ x ∈ o', 0 ≤ x ∧ x ≤ 10 :=
            fun o' hok x hx => ⟨by linarith [(hok x hx).1], (hok x hx).2⟩
          rcases ho with rfl | rfl | rfl
          · exact weak _ h6
          · exact weak _ h7
          · exact weak _ h9
      | some m =>
          apply avg_bounds
          intro o ho
          simp only [List.cons_append, List.nil_append, List.mem_cons,
            List.not_mem_nil, or_false] at ho
          have weak : ∀ o', okMetric o' → ∀ x ∈ o', 0 ≤ x ∧ x ≤ 10 :=
            fun o' hok x hx => ⟨by linarith [(hok x hx).1], (hok x hx).2⟩
          have hmb := h8 m (by simp [hm])
          rcases ho with rfl | rfl | rfl | rfl
          · exact weak _ h6
          · exact weak _ h7
          · exact weak _ h9
          · intro x hx
            have : x = 10 - m := by simpa [Option.mem_def, eq_comm] using hx
            subst this
            constructor <;> linarith [hmb.1, hmb.2]
    have hover : ∀ x ∈ calculateOverallScore (calculateProductScore scores)
        (calculateBusinessScore scores) (calculatePersonalScore scores),
        0 ≤ x ∧ x ≤ 10 := by
      apply overall_bounds
      · exact fun x hx => ⟨by linarith [(hprod x hx).1], (hprod x hx).2⟩
      · exact hbus
      · exact fun x hx => ⟨by linarith [(hpers x hx).1], (hpers x hx).2⟩
    exact ⟨hprod, hpers, hbus, hover⟩
  · refine ⟨?_, ?_, ?_, ?_, ?_, ?_, ?_, ?_, ?_, ?_, ?_, ?_⟩ <;>
      · intro x hx
        simp only [Option.mem_def] at hx
        first
          | exact Option.noConfusion hx
          | · injection hx with h
              subst h
              norm_num
  · simp only [computeAllScores]
    norm_num [calculateBusinessScore, avg, List.filterMap_cons, List.filterMap_nil]
  · simp only [computeAllScores]
    norm_num [calculateBusinessScore, calculateProductScore, calculatePersonalScore,
      calculateOverallScore, avg, List.filterMap_cons, List.filterMap_nil]

/-- Witness for C10 at a concrete input: on the valid all-maintenance map
the overall score 0 indeed lies in the closed interval 0-10. -/
theorem claim_C10_range_invariant_witness :
    0 ≤ (0 : ℚ) ∧ (0 : ℚ) ≤ 10 :=
  (claim_C10_range_invariant.1 { maintenance := some 10 }
      claim_C10_range_invariant.2.1).2.2.2 0
    (by rw [claim_C10_range_invariant.2.2.2]; rfl)

/-! ## Response validator (src/src/lib/export-evaluation.ts, lines 513-558)

`validateEvaluationResponse` and `isValidMetric`, translated branch by
branch; the sequential early-return structure of the source becomes a
short-circuit conjunction with the checks in source order. -/

def kFirstImpressions : List Char := String.toList "firstImpressions"

def kWhatItDoes : List Char := String.toList "whatItDoes"

def kTargetUser : List Char := String.toList "targetUser"

def kTrustLevel : List Char := String.toList "trustLevel"

def kLow : List Char := String.toList "low"

def kMedium : List Char := String.toList "medium"

def kHigh : List Char := String.toList "high"

def kProduct : List Char := String.toList "product"

def kBusiness : List Char := String.toList "business"

def kScore : List Char := String.toList "score"

def kReason : List Char := String.toList "reason"

def kRecommendations : List Char := String.toList "recommendations"

def kSummary : List Char := String.toList "summary"

/-- The five product metric keys, in source order. -/
def productKeys : List (List Char) :=
  [String.toList "usability", String.toList "value", String.toList "features",
    String.toList "polish", String.toList "competition"]

/-- The four business metric keys, in source order. -/
def businessKeys : List (List Char) :=
  [String.toList "market", String.toList "monetization",
    String.toList "maintenance", String.toList "growth"]

/-- `isValidMetric`: the metric value is a non-null object whose `score`
is a number in 1-10 and whose `reason` is a string. -/
def isValidMetric (metric : Option JsValue) : Bool :=
  match metric with
  | none => false
  | some m =>
      jsIsObjectLike m &&
      (match jsGetV m kScore with
       | some (.number q) => decide (1 ≤ q) && decide (q ≤ 10)
       | _ => false) &&
      isStringProp (jsGetV m kReason)

/-- `['low','medium','high'].includes(fi.trustLevel)`. -/
def trustCheck (o : Option JsValue) : Bool :=
  match o with
  | some (.str s) => decide (s = kLow) || decide (s = kMedium) || decide (s = kHigh)
  | _ => false

/-- The firstImpressions block of the validation: a non-null object with
string `whatItDoes` and `targetUser` and an admissible `trustLevel`. -/
def fiCheck (o : Option JsValue) : Bool :=
  match o with
  | some fi =>
      jsIsObjectLike fi &&
      isStringProp (jsGetV fi kWhatItDoes) &&
      isStringProp (jsGetV fi kTargetUser) &&
      trustCheck (jsGetV fi kTrustLevel)
  | none => false

/-- A metric category block of the validation: a non-null object each of
whose listed keys holds a valid metric. -/
def catCheck (o : Option JsValue) (keys : List (List Char)) : Bool :=
  match o with
  | some c => jsIsObjectLike c && keys.all (fun k => isValidMetric (jsGetV c k))
  | none => false

/-- The recommendations block of the validation: an array, non-empty,
every element a string. -/
def recCheck (o : Option JsValue) : Bool :=
  match o with
  | some (.arr items) =>
      !items.isEmpty && items.all (fun it => match it with
        | .str _ => true
        | _ => false)
  | _ => false

/-- `validateEvaluationResponse` (the lines 513-552 variant): object
shape, firstImpressions fields, the nine metrics, a non-empty string
array of recommendations and a string summary, checked in source
order. -/
def validateEvaluationResponse (data : JsValue) : Bool :=
  jsIsObjectLike data &&
  fiCheck (jsGetV data kFirstImpressions) &&
  catCheck (jsGetV data kProduct) productKeys &&
  catCheck (jsGetV data kBusiness) businessKeys &&
  recCheck (jsGetV data kRecommendations) &&
  isStringProp (jsGetV data kSummary)

/-! ### The C5 claim, stated and settled -/

/-- A metric check exactly as claim C5 words it: `score` a number in
1-10 and `reason` a NON-EMPTY string. -/
def claimMetricOk (metric : Option JsValue) : Bool :=
  match metric with
  | none => false
  | some m =>
      (match jsGetV m kScore with
       | some (.number q) => decide (1 ≤ q) && decide (q ≤ 10)
       | _ => false) &&
      (match jsGetV m kReason with
       | some (.str r) => !r.isEmpty
       | _ => false)

/-- The validation condition exactly as claim C5 words it: the nine
metric objects exist and pass `claimMetricOk`, `summary` is a non-empty
string, `recommendations` is a non-empty array of strings, and
`firstImpressions.trustLevel` is one of low, medium, high. -/
def claimC5Spec (data : JsValue) : Bool :=
  productKeys.all (fun k =>
    claimMetricOk ((jsGetV data kProduct).bind (fun p => jsGetV p k))) &&
  businessKeys.all (fun k =>
    claimMetricOk ((jsGetV data kBusiness).bind (fun b => jsGetV b k))) &&
  (match jsGetV data kSummary with
   | some (.str s) => !s.isEmpty
   | _ => false) &&
  (match jsGetV data kRecommendations with
   | some (.arr items) => !items.isEmpty && items.all (fun it => match it with
      | .str _ => true
      | _ => false)
   | _ => false) &&
  trustCheck ((jsGetV data kFirstImpressions).bind (fun fi => jsGetV fi kTrustLevel))

/-- A metric object with score 5 and the given reason text. -/
def mkMetric (r : List Char) : JsValue :=
  .obj [(kScore, .number 5), (kReason, .str r)]

/-- A full firstImpressions object. -/
def fiFull : JsValue :=
  .obj [(kWhatItDoes, .str (String.toList "x")),
        (kTargetUser, .str (String.toList "y")),
        (kTrustLevel, .str kLow)]

/-- A response whose nine metrics have empty reasons and whose summary is
empty, but which the source validator accepts. -/
def respEmptyReasons : JsValue :=
  .obj [(kFirstImpressions, fiFull),
        (kProduct, .obj (productKeys.map (fun k => (k, mkMetric [])))),
        (kBusiness, .obj (businessKeys.map (fun k => (k, mkMetric [])))),
        (kRecommendations, .arr [.str (String.toList "a")]),
        (kSummary, .str [])]

/-- A response satisfying everything claim C5 lists, whose
firstImpressions object however lacks `whatItDoes`, so the source
validator rejects it. -/
def respNoWhatItDoes : JsValue :=
  .obj [(kFirstImpressions, .obj [(kTrustLevel, .str kLow)]),
        (kProduct, .obj (productKeys.map (fun k =>
          (k, mkMetric (String.toList "r"))))),
        (kBusiness, .obj (businessKeys.map (fun k =>
          (k, mkMetric (String.toList "r"))))),
        (kRecommendations, .arr [.str (String.toList "a")]),
        (kSummary, .str (String.toList "s"))]

/-- Counterexample to C5 as stated: the claimed iff fails in both
directions.  The validator accepts a response with empty metric reasons
and an empty summary (it never checks non-emptiness of those strings),
and it rejects a response meeting every condition the claim lists
because it additionally requires `firstImpressions.whatItDoes` and
`targetUser` to be strings. -/
theorem claim_C5_counterexample :
    validateEvaluationResponse respEmptyReasons = true ∧
    claimC5Spec respEmptyReasons = false ∧
    claimC5Spec respNoWhatItDoes = true ∧
    validateEvaluationResponse respNoWhatItDoes = false := by
  refine ⟨?_, ?_, ?_, ?_⟩ <;> rfl

/-- `isValidMetric` as a proposition. -/
def MetricProp (metric : Option JsValue) : Prop :=
  ∃ m, metric = some m ∧ jsIsObjectLike m = true ∧
    (∃ q, jsGetV m kScore = some (.number q) ∧ 1 ≤ q ∧ q ≤ 10) ∧
    (∃ r, jsGetV m kReason = some (.str r))

/-- C5 as amended: what `validateEvaluationResponse` actually requires.
Reasons and the summary may be empty strings, and the firstImpressions
object must also carry string `whatItDoes` and `targetUser` fields. -/
def AmendedC5Spec (data : JsValue) : Prop :=
  jsIsObjectLike data = true ∧
  (∃ fi, jsGetV data kFirstImpressions = some fi ∧ jsIsObjectLike fi = true ∧
    (∃ s, jsGetV fi kWhatItDoes = some (.str s)) ∧
    (∃ s, jsGetV fi kTargetUser = some (.str s)) ∧
    (∃ s, jsGetV fi kTrustLevel = some (.str s) ∧
      (s = kLow ∨ s = kMedium ∨ s = kHigh))) ∧
  (∃ p, jsGetV data kProduct = some p ∧ jsIsObjectLike p = true ∧
    ∀ k ∈ productKeys, MetricProp (jsGetV p k)) ∧
  (∃ b, jsGetV data kBusiness = some b ∧ jsIsObjectLike b = true ∧
    ∀ k ∈ businessKeys, MetricProp (jsGetV b k)) ∧
  (∃ items, jsGetV data kRecommendations = some (.arr items) ∧ items ≠ [] ∧
    ∀ it ∈ items, ∃ s, it = .str s) ∧
  (∃ s, jsGetV data kSummary = some (.str s))

theorem isStringProp_iff (o : Option JsValue) :
    isStringProp o = true ↔ ∃ s, o = some (.str s) := by
  cases o with
  | none => simp [isStringProp]
  | some v => cases v <;> simp [isStringProp]

theorem isValidMetric_iff (o : Option JsValue) :
    isValidMetric o = true ↔ MetricProp o := by
  cases o with
  | none => simp [isValidMetric, MetricProp]
  | some m =>
      simp only [isValidMetric, Bool.and_eq_true, MetricProp, Option.some.injEq]
      constructor
      · rintro ⟨⟨hobj, hscore⟩, hreason⟩
        refine ⟨m, rfl, hobj, ?_, (isStringProp_iff _).mp hreason⟩
        revert hscore
        cases hs : jsGetV m kScore with
        | none => intro h; simp at h
        | some v =>
            cases v <;> intro h <;> simp at h
            exact ⟨_, rfl, h.1, h.2⟩
      · rintro ⟨m', hm', hobj, ⟨q, hq, h1, h2⟩, r, hr⟩
        cases hm'
        refine ⟨⟨hobj, ?_⟩, (isStringProp_iff _).mpr ⟨r, hr⟩⟩
        rw [hq]
        simp [h1, h2]

theorem trustCheck_iff (o : Option JsValue) :
    trustCheck o = true ↔
      ∃ s, o = some (.str s) ∧ (s = kLow ∨ s = kMedium ∨ s = kHigh) := by
  cases o with
  | none => simp [trustCheck]
  | some v => cases v <;> simp [trustCheck] <;> tauto

theorem fiCheck_iff (o : Option JsValue) :
    fiCheck o = true ↔
      ∃ fi, o = some fi ∧ jsIsObjectLike fi = true ∧
        (∃ s, jsGetV fi kWhatItDoes = some (.str s)) ∧
        (∃ s, jsGetV fi kTargetUser = some (.str s)) ∧
        (∃ s, jsGetV fi kTrustLevel = some (.str s) ∧
          (s = kLow ∨ s = kMedium ∨ s = kHigh)) := by
  cases o with
  | none => simp [fiCheck]
  | some fi =>
      simp only [fiCheck, Bool.and_eq_true, Option.some.injEq]
      constructor
      · rintro ⟨⟨⟨hobj, hw⟩, ht⟩, htrust⟩
        exact ⟨fi, rfl, hobj, (isStringProp_iff _).mp hw,
          (isStringProp_iff _).mp ht, (trustCheck_iff _).mp htrust⟩
      · rintro ⟨fi', hfi', hobj, hw, ht, htrust⟩
        cases hfi'
        exact ⟨⟨⟨hobj, (isStringProp_iff _).mpr hw⟩,
          (isStringProp_iff _).mpr ht⟩, (trustCheck_iff _).mpr htrust⟩

theorem catCheck_iff (o : Option JsValue) (keys : List (List Char)) :
    catCheck o keys = true ↔
      ∃ c, o = some c ∧ jsIsObjectLike c = true ∧
        ∀ k ∈ keys, MetricProp (jsGetV c k) := by
  cases o with
  | none => simp [catCheck]
  | some c =>
      simp only [catCheck, Bool.and_eq_true, List.all_eq_true, Option.some.injEq]
      constructor
      · rintro ⟨hobj, hall⟩
        exact ⟨c, rfl, hobj, fun k hk => (isValidMetric_iff _).mp (hall k hk)⟩
      · rintro ⟨c', hc', hobj, hall⟩
        cases hc'
        exact ⟨hobj, fun k hk => (isValidMetric_iff _).mpr (hall k hk)⟩

theorem recCheck_iff (o : Option JsValue) :
    recCheck o = true ↔
      ∃ items, o = some (.arr items) ∧ items ≠ [] ∧
        ∀ it ∈ items, ∃ s, it = JsValue.str s := by
  cases o with
  | none => simp [recCheck]
  | some v =>
      cases v with
      | arr items =>
          simp only [recCheck, Bool.and_eq_true, List.all_eq_true,
            Option.some.injEq, JsValue.arr.injEq]
          constructor
          · rintro ⟨hne, hall⟩
            refine ⟨items, rfl, by simpa using hne, fun it hit => ?_⟩
            have h := hall it hit
            revert h
            cases it <;> simp
          · rintro ⟨items', hi', hne, hall⟩
            cases hi'
            refine ⟨by simpa using hne, fun it hit => ?_⟩
            rcases hall it hit with ⟨s, rfl⟩
            simp
      | null => simp [recCheck]
      | boolean b => simp [recCheck]
      | number q => simp [recCheck]
      | str s => simp [recCheck]
      | obj fields => simp [recCheck]

/-- C5 as amended, proved: the validator accepts exactly the responses
described by `AmendedC5Spec`, and any response carrying a metric score
that is a number outside 1-10 (such as 0 or 11) is rejected. -/
theorem claim_C5_validator_amended :
    (∀ data : JsValue, validateEvaluationResponse data = true ↔ AmendedC5Spec data) ∧
    (∀ data : JsValue, ∀ cat key : List Char,
      ((cat = kProduct ∧ key ∈ productKeys) ∨
        (cat = kBusiness ∧ key ∈ businessKeys)) →
      ∀ q : ℚ,
        ((jsGetV data cat).bind (fun c => jsGetV c key)).bind
          (fun m => jsGetV m kScore) = some (.number q) →
        (q < 1 ∨ 10 < q) →
        validateEvaluationResponse data = false) := by
  have main : ∀ data : JsValue,
      validateEvaluationResponse data = true ↔ AmendedC5Spec data := by
    intro data
    simp only [validateEvaluationResponse, Bool.and_eq_true, AmendedC5Spec]
    constructor
    · rintro ⟨⟨⟨⟨⟨hobj, hfi⟩, hprod⟩, hbus⟩, hrec⟩, hsum⟩
      exact ⟨hobj, (fiCheck_iff _).mp hfi, (catCheck_iff _ _).mp hprod,
        (catCheck_iff _ _).mp hbus, (recCheck_iff _).mp hrec,
        (isStringProp_iff _).mp hsum⟩
    · rintro ⟨hobj, hfi, hprod, hbus, hrec, hsum⟩
      exact ⟨⟨⟨⟨⟨hobj, (fiCheck_iff _).mpr hfi⟩, (catCheck_iff _ _).mpr hprod⟩,
        (catCheck_iff _ _).mpr hbus⟩, (recCheck_iff _).mpr hrec⟩,
        (isStringProp_iff _).mpr hsum⟩
  refine ⟨main, ?_⟩
  intro data cat key hck q hq hout
  rcases Bool.eq_false_or_eq_true (validateEvaluationResponse data) with hb | hb
  case inr => exact hb
  exfalso
  have hspec := (main data).mp hb
  rcases hck with ⟨rfl, hk⟩ | ⟨rfl, hk⟩
  · rcases hspec.2.2.1 with ⟨p, hp, hpo, hall⟩
    rcases hall key hk with ⟨m, hm, hmo, ⟨q', hq', h1, h2⟩, hrest⟩
    rw [hp] at hq
    simp only [Option.some_bind] at hq
    rw [hm] at hq
    simp only [Option.some_bind] at hq
    rw [hq'] at hq
    have hqq : q' = q := by simpa using hq
    subst hqq
    rcases hout with h | h <;> linarith
  · rcases hspec.2.2.2.1 with ⟨b, hb', hbo, hall⟩
    rcases hall key hk with ⟨m, hm, hmo, ⟨q', hq', h1, h2⟩, hrest⟩
    rw [hb'] at hq
    simp only [Option.some_bind] at hq
    rw [hm] at hq
    simp only [Option.some_bind] at hq
    rw [hq'] at hq
    have hqq : q' = q := by simpa using hq
    subst hqq
    rcases hout with h | h <;> linarith

/-- Witness for the amended C5 at a concrete input: a response whose
usability score is 0 is rejected. -/
theorem claim_C5_validator_amended_witness :
    validateEvaluationResponse
      (.obj [(kProduct, .obj [(String.toList "usability",
        .obj [(kScore, .number 0), (kReason, .str [])])])]) = false :=
  claim_C5_validator_amended.2 _ kProduct (String.toList "usability")
    (Or.inl ⟨rfl, by simp [productKeys]⟩) 0 rfl (by norm_num)

/-! ## JSON extraction and parsing (src/src/lib/ai/claude.ts, lines 75-90)

`parseJsonResponse` trims the raw text, strips one fenced code block if
the fence regex matches, and feeds the result to JSON.parse; a parse
failure raises.  The regex
`\x60\x60\x60(?:json)?\s*([\s\S]*?)\x60\x60\x60` is embedded as
`fenceSplit` (leftmost backtick triple, then the optional tag, greedy
whitespace, and the lazily minimal capture up to the next triple) and
JSON.parse as the executable `jsonParse`. -/

/-- The backtick character. -/
def btick : Char := Char.ofNat 96

/-- The JS whitespace class used by `trim` and `\s`. -/
def isJsWs (c : Char) : Bool :=
  c == ' ' || c == '\t' || c == '\n' || c == '\r' || c == '\x0b' || c == '\x0c'

/-- Leading-whitespace strip. -/
def ltrim (l : List Char) : List Char := l.dropWhile isJsWs

/-- Trailing-whitespace strip. -/
def rtrim (l : List Char) : List Char := (l.reverse.dropWhile isJsWs).reverse

/-- `String.prototype.trim`. -/
def trim (l : List Char) : List Char := rtrim (ltrim l)

/-- Split at the leftmost backtick triple: `some (before, after)` when a
triple occurs, `none` otherwise. -/
def fenceSplit : List Char → Option (List Char × List Char)
  | [] => none
  | x :: xs =>
      if x = btick ∧ xs.take 2 = [btick, btick] then some ([], xs.drop 2)
      else (fenceSplit xs).map (fun p => (x :: p.1, p.2))

/-- Consume the optional `json` language tag after an opening fence. -/
def stripJsonTag : List Char → List Char
  | 'j' :: 's' :: 'o' :: 'n' :: rest => rest
  | l => l

/-- The payload `parseJsonResponse` hands to JSON.parse: the trimmed
text, or — when the fence regex matches — the trimmed lazily-minimal
capture between the opening fence (plus optional tag and greedy
whitespace) and the next fence. -/
def extractJson (s : List Char) : List Char :=
  let t := trim s
  match fenceSplit t with
  | none => t
  | some (_, rest) =>
      match fenceSplit (ltrim (stripJsonTag rest)) with
      | some (cap, _) => trim cap
      | none => t

/-- Hex digit value. -/
def hexVal (c : Char) : Option ℕ :=
  if '0' ≤ c ∧ c ≤ '9' then some (c.toNat - 48)
  else if 'a' ≤ c ∧ c ≤ 'f' then some (c.toNat - 87)
  else if 'A' ≤ c ∧ c ≤ 'F' then some (c.toNat - 55)
  else none

/-- Four hex digits of a `\u` escape. -/
def parseHex4 (l : List Char) : Option (ℕ × List Char) :=
  match l with
  | a :: b :: c :: d :: rest =>
      match hexVal a, hexVal b, hexVal c, hexVal d with
      | some va, some vb, some vc, some vd =>
          some (va * 4096 + vb * 256 + vc * 16 + vd, rest)
      | _, _, _, _ => none
  | _ => none

/-- JSON string body after the opening quote, with escapes. -/
def pString : ℕ → List Char → Option (List Char × List Char)
  | 0, _ => none
  | _ + 1, [] => none
  | fuel + 1, c :: rest =>
      if c = '"' then some ([], rest)
      else if c = '\\' then
        match rest with
        | [] => none
        | e :: rest2 =>
            if e = '"' then (pString fuel rest2).map (fun p => ('"' :: p.1, p.2))
            else if e = '\\' then (pString fuel rest2).map (fun p => ('\\' :: p.1, p.2))
            else if e = '/' then (pString fuel rest2).map (fun p => ('/' :: p.1, p.2))
            else if e = 'b' then (pString fuel rest2).map (fun p => ('\x08' :: p.1, p.2))
            else if e = 'f' then (pString fuel rest2).map (fun p => ('\x0c' :: p.1, p.2))
            else if e = 'n' then (pString fuel rest2).map (fun p => ('\n' :: p.1, p.2))
            else if e = 'r' then (pString fuel rest2).map (fun p => ('\r' :: p.1, p.2))
            else if e = 't' then (pString fuel rest2).map (fun p => ('\t' :: p.1, p.2))
            else if e = 'u' then
              match parseHex4 rest2 with
              | some (n, rest3) =>
                  (pString fuel rest3).map (fun p => (Char.ofNat n :: p.1, p.2))
              | none => none
            else none
      else if c.toNat < 32 then none
      else (pString fuel rest).map (fun p => (c :: p.1, p.2))

/-- Digit run to a natural number. -/
def digitsToNat (l : List Char) : ℕ :=
  l.foldl (fun acc c => 10 * acc + (c.toNat - 48)) 0

/-- JSON number grammar, evaluated exactly in `ℚ`. -/
def pNumber (l : List Char) : Option (ℚ × List Char) :=
  let (neg, l1) :=
    match l with
    | '-' :: r => (true, r)
    | _ => (false, l)
  let intDigits := l1.takeWhile Char.isDigit
  match intDigits with
  | [] => none
  | d0 :: ds =>
      if d0 = '0' ∧ ds ≠ [] then none
      else
        let intVal : ℚ := (digitsToNat intDigits : ℚ)
        let rest1 := l1.dropWhile Char.isDigit
        let fracParsed : Option (ℚ × List Char) :=
          match rest1 with
          | '.' :: r2 =>
              let fd := r2.takeWhile Char.isDigit
              if fd = [] then none
              else some ((digitsToNat fd : ℚ) / ((10 : ℚ) ^ fd.length),
                r2.dropWhile Char.isDigit)
          | _ => some (0, rest1)
        match fracParsed with
        | none => none
        | some (fracVal, rest2) =>
            let expParsed : Option (ℤ × List Char) :=
              match rest2 with
              | e :: r3 =>
                  if e = 'e' ∨ e = 'E' then
                    let (esign, r4) :=
                      match r3 with
                      | '+' :: r5 => ((1 : ℤ), r5)
                      | '-' :: r5 => ((-1 : ℤ), r5)
                      | _ => ((1 : ℤ), r3)
                    let ed := r4.takeWhile Char.isDigit
                    if ed = [] then none
                    else some (esign * (digitsToNat ed : ℤ), r4.dropWhile Char.isDigit)
                  else some (0, rest2)
              | [] => some (0, rest2)
            match expParsed with
            | none => none
            | some (expVal, rest3) =>
                let mag : ℚ := (intVal + fracVal) * (10 : ℚ) ^ expVal
                some (if neg then -mag else mag, rest3)

mutual

/-- One JSON value, preceded by optional whitespace. -/
def pValue : ℕ → List Char → Option (JsValue × List Char)
  | 0, _ => none
  | fuel + 1, input =>
      match input.dropWhile isJsWs with
      | 'n' :: 'u' :: 'l' :: 'l' :: rest => some (.null, rest)
      | 't' :: 'r' :: 'u' :: 'e' :: rest => some (.boolean true, rest)
      | 'f' :: 'a' :: 'l' :: 's' :: 'e' :: rest => some (.boolean false, rest)
      | '"' :: rest => (pString fuel rest).map (fun p => (.str p.1, p.2))
      | '[' :: rest =>
          (match rest.dropWhile isJsWs with
           | ']' :: rest2 => some (.arr [], rest2)
           | _ => (pElems fuel rest).map (fun p => (.arr p.1, p.2)))
      | '\x7b' :: rest =>
          (match rest.dropWhile isJsWs with
           | '\x7d' :: rest2 => some (.obj [], rest2)
           | _ => (pMembers fuel rest).map (fun p => (.obj p.1, p.2)))
      | rest => (pNumber rest).map (fun p => (.number p.1, p.2))

/-- Comma-separated array elements up to the closing bracket. -/
def pElems : ℕ → List Char → Option (List JsValue × List Char)
  | 0, _ => none
  | fuel + 1, input =>
      match pValue fuel input with
      | none => none
      | some (v, rest) =>
          match rest.dropWhile isJsWs with
          | ',' :: rest2 => (pElems fuel rest2).map (fun p => (v :: p.1, p.2))
          | ']' :: rest2 => some ([v], rest2)
          | _ => none

/-- Comma-separated object members up to the closing brace. -/
def pMembers : ℕ → List Char → Option (List (List Char × JsValue) × List Char)
  | 0, _ => none
  | fuel + 1, input =>
      match input.dropWhile isJsWs with
      | '"' :: rest =>
          (match pString fuel rest with
           | none => none
           | some (key, rest2) =>
               match rest2.dropWhile isJsWs with
               | ':' :: rest3 =>
                   (match pValue fuel rest3 with
                    | none => none
                    | some (v, rest4) =>
                        match rest4.dropWhile isJsWs with
                        | ',' :: rest5 =>
                            (pMembers fuel rest5).map (fun p => ((key, v) :: p.1, p.2))
                        | '\x7d' :: rest5 => some ([(key, v)], rest5)
                        | _ => none)
               | _ => none)
      | _ => none

end

/-- JSON.parse: trim, parse one value, require only whitespace after. -/
def jsonParse (s : List Char) : Option JsValue :=
  let t := trim s
  match pValue (t.length + 1) t with
  | some (v, rest) => if (rest.dropWhile isJsWs).isEmpty then some v else none
  | none => none

/-- `parseJsonResponse`: extract the payload and JSON.parse it; a parse
failure is an immediate error. -/
def parseJsonResponse (s : List Char) : Except (List Char) JsValue :=
  match jsonParse (extractJson s) with
  | some v => .ok v
  | none => .error (String.toList "Failed to parse JSON response")

/-- A fenced code block around `s`, with or without the `json` tag. -/
def fencedWrap (tag : Bool) (s : List Char) : List Char :=
  btick :: btick :: btick :: ((if tag then String.toList "json" else []) ++
    ('\n' :: s ++ '\n' :: btick :: btick :: btick :: []))

/-! ### String lemmas for the extraction proofs -/

theorem dropWhile_idem (p : Char → Bool) (l : List Char) :
    (l.dropWhile p).dropWhile p = l.dropWhile p := by
  induction l with
  | nil => simp
  | cons x xs ih =>
      by_cases hp : p x
      · simp [List.dropWhile_cons, hp, ih]
      · simp [List.dropWhile_cons, hp]

theorem ltrim_ltrim (l : List Char) : ltrim (ltrim l) = ltrim l :=
  dropWhile_idem _ l

theorem rtrim_nil : rtrim [] = [] := rfl

theorem rtrim_prefix_self (l : List Char) : rtrim l <+: l := by
  rw [← List.reverse_suffix, rtrim, List.reverse_reverse]
  exact List.dropWhile_suffix _

theorem ltrim_suffix (l : List Char) : ltrim l <:+ l := List.dropWhile_suffix _

theorem ltrim_eq_self_of_head (c : Char) (l : List Char) (h : isJsWs c = false) :
    ltrim (c :: l) = c :: l := by
  simp [ltrim, List.dropWhile_cons, h]

theorem ltrim_head_not_ws (l : List Char) (c : Char) (cs : List Char)
    (h : ltrim l = c :: cs) : isJsWs c = false := by
  have := List.head_dropWhile_not isJsWs l
  rw [ltrim] at h
  rw [h] at this
  simpa using this

theorem ltrim_of_ltrim_eq (Y : List Char) (h : ltrim Y = Y) :
    ltrim (rtrim Y) = rtrim Y := by
  cases hr : rtrim Y with
  | nil => rfl
  | cons c cs =>
      have hpre : rtrim Y <+: Y := rtrim_prefix_self Y
      rw [hr] at hpre
      rcases hpre with ⟨t, ht⟩
      have hY : Y = c :: (cs ++ t) := by rw [← ht]; simp
      have hc : isJsWs c = false := by
        apply ltrim_head_not_ws Y c (cs ++ t)
        rw [h, hY]
      exact ltrim_eq_self_of_head c cs hc

theorem rtrim_rtrim (Y : List Char) : rtrim (rtrim Y) = rtrim Y := by
  simp [rtrim, List.reverse_reverse, dropWhile_idem]

theorem trim_trim (l : List Char) : trim (trim l) = trim l := by
  rw [trim, trim, ltrim_of_ltrim_eq (ltrim l) (ltrim_ltrim l), rtrim_rtrim]

theorem jsonParse_trim (s : List Char) : jsonParse (trim s) = jsonParse s := by
  rw [jsonParse, jsonParse, trim_trim]

theorem trim_infix_self (l : List Char) : trim l <:+: l :=
  ((rtrim_prefix_self (ltrim l)).isInfix).trans ((ltrim_suffix l).isInfix)

/-! ### Fence lemmas -/

theorem fenceSplit_eq_some (s pre post : List Char)
    (h : fenceSplit s = some (pre, post)) :
    s = pre ++ btick :: btick :: btick :: post := by
  induction s generalizing pre post with
  | nil => simp [fenceSplit] at h
  | cons x xs ih =>
      rw [fenceSplit] at h
      split at h
      case isTrue hc =>
        obtain ⟨hx, htake⟩ := hc
        subst hx
        simp only [Option.some.injEq, Prod.mk.injEq] at h
        obtain ⟨rfl, rfl⟩ := h
        have hsplit : xs.take 2 ++ xs.drop 2 = xs := List.take_append_drop 2 xs
        rw [htake] at hsplit
        rw [← hsplit]
        simp
      case isFalse hc =>
        cases hrec : fenceSplit xs with
        | none => rw [hrec] at h; exact absurd h (by simp)
        | some p =>
            obtain ⟨pre', post'⟩ := p
            rw [hrec] at h
            rw [show (some (pre', post')).map
              (fun p => (x :: p.1, p.2)) = some (x :: pre', post') from rfl] at h
            simp only [Option.some.injEq, Prod.mk.injEq] at h
            obtain ⟨h1, h2⟩ := h
            subst h1
            subst h2
            simp [ih pre' post' hrec]

theorem fenceSplit_append_fence (l r : List Char) :
    fenceSplit (l ++ btick :: btick :: btick :: r) ≠ none := by
  induction l with
  | nil =>
      rw [List.nil_append, fenceSplit]
      simp
  | cons x xs ih =>
      rw [List.cons_append, fenceSplit]
      by_cases hc : x = btick ∧ (xs ++ btick :: btick :: btick :: r).take 2 = [btick, btick]
      · simp [hc]
      · rw [if_neg hc]
        cases hrec : fenceSplit (xs ++ btick :: btick :: btick :: r) with
        | none => exact absurd hrec ih
        | some p => simp

theorem noFence_infix (s t : List Char) (hs : fenceSplit s = none)
    (hinf : t <:+: s) : fenceSplit t = none := by
  cases ht : fenceSplit t with
  | none => rfl
  | some p =>
      exfalso
      obtain ⟨pre, post⟩ := p
      have hteq := fenceSplit_eq_some t pre post ht
      rcases hinf with ⟨u, v, huv⟩
      have : s = (u ++ pre) ++ btick :: btick :: btick :: (post ++ v) := by
        rw [← huv, hteq]
        simp
      exact fenceSplit_append_fence (u ++ pre) (post ++ v) (this ▸ hs)

theorem extractJson_of_noFence (s : List Char) (h : fenceSplit s = none) :
    extractJson s = trim s := by
  rw [extractJson]
  have : fenceSplit (trim s) = none := noFence_infix s (trim s) h (trim_infix_self s)
  rw [this]

theorem fenceSplit_cons_none (x : Char) (xs : List Char)
    (h : fenceSplit (x :: xs) = none) : fenceSplit xs = none := by
  rw [fenceSplit] at h
  split at h
  · exact absurd h (by simp)
  · cases hrec : fenceSplit xs with
    | none => rfl
    | some p => rw [hrec] at h; exact absurd h (by simp)

theorem nl_ne_btick : ('\n' : Char) ≠ btick := by decide

theorem isJsWs_nl : isJsWs '\n' = true := by decide

theorem isJsWs_btick : isJsWs btick = false := by decide

theorem fenceSplit_append_close (a l : List Char) (h : fenceSplit a = none) :
    fenceSplit (a ++ '\n' :: btick :: btick :: btick :: l) =
      some (a ++ ['\n'], l) := by
  induction a with
  | nil =>
      rw [List.nil_append]
      rw [fenceSplit]
      rw [if_neg (by rintro ⟨hx, -⟩; exact nl_ne_btick hx)]
      rw [fenceSplit]
      rw [if_pos (by simp)]
      simp
  | cons x xs ih =>
      have hxs : fenceSplit xs = none := fenceSplit_cons_none x xs h
      rw [List.cons_append, fenceSplit]
      have hcond : ¬(x = btick ∧
          (xs ++ '\n' :: btick :: btick :: btick :: l).take 2 = [btick, btick]) := by
        rintro ⟨rfl, htake⟩
        rw [fenceSplit] at h
        cases xs with
        | nil =>
            simp at htake
            exact nl_ne_btick htake
        | cons y ys =>
            cases ys with
            | nil =>
                simp at htake
                exact nl_ne_btick htake.2
            | cons z zs =>
                simp at htake
                obtain ⟨rfl, rfl⟩ := htake
                rw [if_pos (by simp)] at h
                exact absurd h (by simp)
      rw [if_neg hcond, ih hxs]
      simp

theorem ltrim_append_ws (w l : List Char) (hw : ∀ c ∈ w, isJsWs c = true) :
    ltrim (w ++ l) = ltrim l := by
  induction w with
  | nil => simp
  | cons c cs ih =>
      rw [List.cons_append, ltrim, List.dropWhile_cons,
        if_pos (hw c (by simp))]
      exact ih (fun c hc => hw c (by simp [hc]))

theorem rtrim_append_ws (l w : List Char) (hw : ∀ c ∈ w, isJsWs c = true) :
    rtrim (l ++ w) = rtrim l := by
  rw [rtrim, rtrim, List.reverse_append]
  have : (w.reverse ++ l.reverse).dropWhile isJsWs = l.reverse.dropWhile isJsWs :=
    ltrim_append_ws w.reverse l.reverse (fun c hc => hw c (by simpa using hc))
  rw [this]

theorem rtrim_append_singleton (A : List Char) (c : Char)
    (hc : isJsWs c = false) : rtrim (A ++ [c]) = A ++ [c] := by
  rw [rtrim, List.reverse_append]
  simp only [List.reverse_cons, List.reverse_nil, List.nil_append,
    List.singleton_append, List.dropWhile_cons, hc]
  simp

theorem ltrim_append_of_ne (s z : List Char) (hne : ltrim s ≠ []) :
    ltrim (s ++ z) = ltrim s ++ z := by
  rw [ltrim, ltrim, List.dropWhile_append,
    if_neg (by simp only [List.isEmpty_iff]; exact hne)]

theorem trim_ltrim_append_nl (s : List Char) (hne : ltrim s ≠ []) :
    trim (ltrim s ++ ['\n']) = trim s := by
  rw [trim]
  have h1 : ltrim (ltrim s ++ ['\n']) = ltrim s ++ ['\n'] := by
    rw [ltrim_append_of_ne (ltrim s) ['\n'] (by rw [ltrim_ltrim]; exact hne),
      ltrim_ltrim]
  rw [h1, rtrim_append_ws (ltrim s) ['\n'] (by simp [isJsWs_nl]), trim]

theorem fenceSplit_fencedWrap (tag : Bool) (s : List Char) :
    fenceSplit (fencedWrap tag s) =
      some ([], (if tag then String.toList "json" else []) ++
        ('\n' :: s ++ '\n' :: btick :: btick :: btick :: [])) := by
  rw [fencedWrap, fenceSplit, if_pos ⟨rfl, by simp⟩]
  simp

theorem trim_wrapped (tag : Bool) (s ws1 ws2 : List Char)
    (hws1 : ∀ c ∈ ws1, isJsWs c = true) (hws2 : ∀ c ∈ ws2, isJsWs c = true) :
    trim (ws1 ++ fencedWrap tag s ++ ws2) = fencedWrap tag s := by
  rw [trim, List.append_assoc, ltrim_append_ws ws1 _ hws1]
  have hcons : fencedWrap tag s ++ ws2 = btick ::
      ((btick :: btick :: ((if tag then String.toList "json" else []) ++
        ('\n' :: s ++ '\n' :: btick :: btick :: btick :: []))) ++ ws2) := by
    rw [fencedWrap]
    simp
  rw [hcons, ltrim_eq_self_of_head _ _ isJsWs_btick, ← hcons,
    rtrim_append_ws _ ws2 hws2]
  rw [show fencedWrap tag s = (btick :: btick :: btick ::
    ((if tag then String.toList "json" else []) ++
      ('\n' :: s ++ ['\n', btick, btick]))) ++ [btick] from by simp [fencedWrap]]
  exact rtrim_append_singleton _ btick isJsWs_btick

theorem extractJson_wrapped (tag : Bool) (s ws1 ws2 : List Char)
    (hnf : fenceSplit s = none) (hne : ltrim s ≠ [])
    (hws1 : ∀ c ∈ ws1, isJsWs c = true) (hws2 : ∀ c ∈ ws2, isJsWs c = true) :
    extractJson (ws1 ++ fencedWrap tag s ++ ws2) = trim s := by
  have hstrip : stripJsonTag ((if tag then String.toList "json" else []) ++
      ('\n' :: s ++ '\n' :: btick :: btick :: btick :: [])) =
      '\n' :: s ++ '\n' :: btick :: btick :: btick :: [] := by
    cases tag with
    | true => rfl
    | false => rfl
  have hlt : ltrim ('\n' :: s ++ '\n' :: btick :: btick :: btick :: []) =
      ltrim s ++ '\n' :: btick :: btick :: btick :: [] := by
    rw [show (('\n' :: s) ++ '\n' :: btick :: btick :: btick :: []) =
      '\n' :: (s ++ '\n' :: btick :: btick :: btick :: []) from by simp]
    rw [ltrim, List.dropWhile_cons, if_pos isJsWs_nl, ← ltrim]
    exact ltrim_append_of_ne s _ hne
  have hnfl : fenceSplit (ltrim s) = none :=
    noFence_infix s (ltrim s) hnf (ltrim_suffix s).isInfix
  simp only [extractJson, trim_wrapped tag s ws1 ws2 hws1 hws2,
    fenceSplit_fencedWrap, hstrip, hlt,
    fenceSplit_append_close (ltrim s) [] hnfl]
  exact trim_ltrim_append_nl s hne

theorem jsonParse_none_of_ltrim_nil (s : List Char) (h : ltrim s = []) :
    jsonParse s = none := by
  rw [jsonParse]
  have ht : trim s = [] := by rw [trim, h, rtrim_nil]
  rw [ht]
  rfl

/-- Counterexample to C6 as stated: the JSON string literal containing a
fenced-looking payload parses as JSON, but `parseJsonResponse` applied to
it directly mis-fires the fence regex, extracts the single character
between the backtick runs, and raises instead of returning the parsed
string. -/
theorem claim_C6_counterexample :
    jsonParse (String.toList "\"```x```\"") =
      some (.str (String.toList "```x```")) ∧
    parseJsonResponse (String.toList "\"```x```\"") =
      .error (String.toList "Failed to parse JSON response") := ⟨rfl, rfl⟩

/-- C6 as amended: for every string that parses as JSON and contains no
backtick triple, `parseJsonResponse` returns the JSON.parse value both on
the bare string and on any fenced wrapping of it (with or without the
json tag, with any surrounding whitespace); and whenever the extracted
payload fails to parse as JSON, `parseJsonResponse` raises immediately. -/
theorem claim_C6_fenced_extraction_amended :
    (∀ (s : List Char) (v : JsValue), fenceSplit s = none →
      jsonParse s = some v →
      parseJsonResponse s = .ok v ∧
      (∀ (tag : Bool) (ws1 ws2 : List Char),
        (∀ c ∈ ws1, isJsWs c = true) → (∀ c ∈ ws2, isJsWs c = true) →
        parseJsonResponse (ws1 ++ fencedWrap tag s ++ ws2) = .ok v)) ∧
    (∀ s : List Char, jsonParse (extractJson s) = none →
      parseJsonResponse s =
        .error (String.toList "Failed to parse JSON response")) := by
  constructor
  · intro s v hnf hp
    have hne : ltrim s ≠ [] := by
      intro h
      rw [jsonParse_none_of_ltrim_nil s h] at hp
      cases hp
    constructor
    · rw [parseJsonResponse, extractJson_of_noFence s hnf, jsonParse_trim, hp]
    · intro tag ws1 ws2 hws1 hws2
      rw [parseJsonResponse, extractJson_wrapped tag s ws1 ws2 hnf hne hws1 hws2,
        jsonParse_trim, hp]
  · intro s h
    rw [parseJsonResponse, h]

/-- Witness for the amended C6 at a concrete input: the JSON string
literal for "a", wrapped in a json-tagged fence, parses to the same
value. -/
theorem claim_C6_fenced_extraction_amended_witness :
    parseJsonResponse ([] ++ fencedWrap true (String.toList "\"a\"") ++ []) =
      .ok (.str ['a']) :=
  ((claim_C6_fenced_extraction_amended.1 (String.toList "\"a\"")
      (.str ['a']) rfl rfl).2 true [] [] (by simp) (by simp))

/-! ## Generation client retry loop (src/src/lib/ai/claude.ts)

`callClaude` is a for-loop over attempts 0..retries: a successful attempt
returns its content and token counts at once; a failure classified as
fatal (auth/bad-request: status 401/400 for the Anthropic variant, a
message containing 401/403 for the xAI variant) is rethrown immediately;
any other failure is remembered as the last error, and when further
attempts remain the loop sleeps 1000·2^attempt ms and retries; when the
loop ends the last error is thrown.  The per-attempt outcome of the
service — including its fatal/transient classification — is the
environment, modelled as a function from the attempt index. -/

/-- One attempt's outcome at the generation service. -/
inductive Attempt where
  | success (content : List Char) (inputTokens outputTokens : ℕ)
  | failure (fatal : Bool) (err : ℕ)
deriving DecidableEq, Repr

/-- The value `callClaude` resolves with. -/
structure ClaudeResponse where
  content : List Char
  inputTokens : ℕ
  outputTokens : ℕ
deriving DecidableEq, Repr

/-- Observable behavior of one `callClaude` run: the raised error or
returned response, the number of attempts made, and the backoff sleeps
performed (in ms, in order). -/
structure CallTrace where
  result : Except ℕ ClaudeResponse
  attempts : ℕ
  sleeps : List ℕ
deriving Repr

/-- The retry loop body, from the current attempt index with
`retries + 1 - attempt` iterations of fuel and the last stored error. -/
def callClaudeLoop (oc : ℕ → Attempt) (retries : ℕ) :
    ℕ → ℕ → ℕ → CallTrace
  | _, 0, lastErr => ⟨.error lastErr, 0, []⟩
  | attempt, n + 1, _ =>
      match oc attempt with
      | .success c i o => ⟨.ok ⟨c, i, o⟩, 1, []⟩
      | .failure fatal err =>
          if fatal then ⟨.error err, 1, []⟩
          else
            let rest := callClaudeLoop oc retries (attempt + 1) n err
            ⟨rest.result, rest.attempts + 1,
              if attempt < retries then 1000 * 2 ^ attempt :: rest.sleeps
              else rest.sleeps⟩

/-- `callClaude` against the outcome environment `oc` with the given
retry budget (source default 2). -/
def callClaude (oc : ℕ → Attempt) (retries : ℕ) : CallTrace :=
  callClaudeLoop oc retries 0 (retries + 1) 0

theorem callClaudeLoop_attempts_le (oc : ℕ → Attempt) (r : ℕ) :
    ∀ (fuel a lastErr : ℕ),
      (callClaudeLoop oc r a fuel lastErr).attempts ≤ fuel := by
  intro fuel
  induction fuel with
  | zero => intro a lastErr; simp [callClaudeLoop]
  | succ n ih =>
      intro a lastErr
      rw [callClaudeLoop]
      cases oc a with
      | success c i o => simp
      | failure fatal err =>
          cases fatal with
          | true => simp
          | false =>
              simp only [Bool.false_eq_true, if_false]
              exact Nat.succ_le_succ (ih (a + 1) err)

theorem callClaudeLoop_success (oc : ℕ → Attempt) (r : ℕ) (c : List Char)
    (i o : ℕ) :
    ∀ (k a fuel lastErr : ℕ), k < fuel →
      (∀ j, j < k → ∃ e, oc (a + j) = .failure false e) →
      oc (a + k) = .success c i o →
      a + k ≤ r →
      callClaudeLoop oc r a fuel lastErr =
        ⟨.ok ⟨c, i, o⟩, k + 1,
          (List.range k).map (fun j => 1000 * 2 ^ (a + j))⟩ := by
  intro k
  induction k with
  | zero =>
      intro a fuel lastErr hk hfail hsucc hle
      obtain ⟨n, rfl⟩ : ∃ n, fuel = n + 1 := ⟨fuel - 1, by omega⟩
      rw [Nat.add_zero] at hsucc
      rw [callClaudeLoop, hsucc]
      rfl
  | succ k ih =>
      intro a fuel lastErr hk hfail hsucc hle
      obtain ⟨n, rfl⟩ : ∃ n, fuel = n + 1 := ⟨fuel - 1, by omega⟩
      obtain ⟨e, he⟩ := hfail 0 (by omega)
      rw [Nat.add_zero] at he
      rw [callClaudeLoop, he]
      simp only [Bool.false_eq_true, if_false]
      have hrest := ih (a + 1) n e (by omega)
        (fun j hj => by
          obtain ⟨e', he'⟩ := hfail (j + 1) (by omega)
          exact ⟨e', by rw [show a + 1 + j = a + (j + 1) from by omega]; exact he'⟩)
        (by rw [show a + 1 + k = a + (k + 1) from by omega]; exact hsucc)
        (by omega)
      rw [hrest]
      have ha : a < r := by omega
      simp only [CallTrace.mk.injEq, if_pos ha, true_and]
      rw [List.range_succ_eq_map, List.map_cons, List.map_map]
      refine congrArg₂ List.cons (by norm_num) ?_
      exact List.map_congr_left (fun j hj => by
        simp only [Function.comp_apply, Nat.succ_eq_add_one]
        exact congrArg (fun t => 1000 * 2 ^ t) (by omega))

theorem callClaudeLoop_fatal (oc : ℕ → Attempt) (r : ℕ) (e : ℕ) :
    ∀ (k a fuel lastErr : ℕ), k < fuel →
      (∀ j, j < k → ∃ e', oc (a + j) = .failure false e') →
      oc (a + k) = .failure true e →
      a + k ≤ r →
      callClaudeLoop oc r a fuel lastErr =
        ⟨.error e, k + 1,
          (List.range k).map (fun j => 1000 * 2 ^ (a + j))⟩ := by
  intro k
  induction k with
  | zero =>
      intro a fuel lastErr hk hfail hfatal hle
      obtain ⟨n, rfl⟩ : ∃ n, fuel = n + 1 := ⟨fuel - 1, by omega⟩
      rw [Nat.add_zero] at hfatal
      rw [callClaudeLoop, hfatal]
      rfl
  | succ k ih =>
      intro a fuel lastErr hk hfail hfatal hle
      obtain ⟨n, rfl⟩ : ∃ n, fuel = n + 1 := ⟨fuel - 1, by omega⟩
      obtain ⟨e', he⟩ := hfail 0 (by omega)
      rw [Nat.add_zero] at he
      rw [callClaudeLoop, he]
      simp only [Bool.false_eq_true, if_false]
      have hrest := ih (a + 1) n e' (by omega)
        (fun j hj => by
          obtain ⟨e2, he2⟩ := hfail (j + 1) (by omega)
          exact ⟨e2, by rw [show a + 1 + j = a + (j + 1) from by omega]; exact he2⟩)
        (by rw [show a + 1 + k = a + (k + 1) from by omega]; exact hfatal)
        (by omega)
      rw [hrest]
      have ha : a < r := by omega
      simp only [CallTrace.mk.injEq, if_pos ha, true_and]
      rw [List.range_succ_eq_map, List.map_cons, List.map_map]
      refine congrArg₂ List.cons (by norm_num) ?_
      exact List.map_congr_left (fun j hj => by
        simp only [Function.comp_apply, Nat.succ_eq_add_one]
        exact congrArg (fun t => 1000 * 2 ^ t) (by omega))

theorem callClaudeLoop_exhaust (oc : ℕ → Attempt) (r : ℕ) (e : ℕ → ℕ) :
    ∀ (n a lastErr : ℕ), a + (n + 1) = r + 1 →
      (∀ j, j < n + 1 → oc (a + j) = .failure false (e (a + j))) →
      callClaudeLoop oc r a (n + 1) lastErr =
        ⟨.error (e r), n + 1,
          (List.range n).map (fun j => 1000 * 2 ^ (a + j))⟩ := by
  intro n
  induction n with
  | zero =>
      intro a lastErr hsum hfail
      have he0 := hfail 0 (by omega)
      rw [Nat.add_zero] at he0
      have har : a = r := by omega
      rw [callClaudeLoop, he0]
      simp only [Bool.false_eq_true, if_false]
      rw [callClaudeLoop]
      simp [har]
  | succ m ih =>
      intro a lastErr hsum hfail
      have he0 := hfail 0 (by omega)
      rw [Nat.add_zero] at he0
      rw [callClaudeLoop, he0]
      simp only [Bool.false_eq_true, if_false]
      have hrest := ih (a + 1) (e a) (by omega)
        (fun j hj => by
          rw [show a + 1 + j = a + (j + 1) from by omega]
          exact hfail (j + 1) (by omega))
      rw [hrest]
      have ha : a < r := by omega
      simp only [CallTrace.mk.injEq, if_pos ha, true_and]
      rw [List.range_succ_eq_map, List.map_cons, List.map_map]
      refine congrArg₂ List.cons (by norm_num) ?_
      exact List.map_congr_left (fun j hj => by
        simp only [Function.comp_apply, Nat.succ_eq_add_one]
        exact congrArg (fun t => 1000 * 2 ^ t) (by omega))

/-- C7: `callClaude` with retry budget r makes at most r+1 attempts; a
fatal (auth/bad-request class) failure at attempt k after transient
failures raises that error with exactly k+1 attempts made and no further
retry; transient failures sleep 1000·2^attempt ms each before the next
attempt; the first success at attempt k ends the loop returning its
content and token counts; after r+1 transient failures the last error is
raised.  In particular with r = 2 two transient failures then a success
return the third attempt's content after sleeps of 1000 and 2000 ms, and
a fatal failure on the first attempt aborts with one attempt and no
sleep. -/
theorem claim_C7_retry_loop :
    (∀ (oc : ℕ → Attempt) (r : ℕ), (callClaude oc r).attempts ≤ r + 1) ∧
    (∀ (oc : ℕ → Attempt) (r k e : ℕ), k ≤ r →
      (∀ j, j < k → ∃ e', oc j = .failure false e') →
      oc k = .failure true e →
      callClaude oc r =
        ⟨.error e, k + 1, (List.range k).map (fun j => 1000 * 2 ^ j)⟩) ∧
    (∀ (oc : ℕ → Attempt) (r k : ℕ) (c : List Char) (i o : ℕ), k ≤ r →
      (∀ j, j < k → ∃ e', oc j = .failure false e') →
      oc k = .success c i o →
      callClaude oc r =
        ⟨.ok ⟨c, i, o⟩, k + 1, (List.range k).map (fun j => 1000 * 2 ^ j)⟩) ∧
    (∀ (oc : ℕ → Attempt) (r : ℕ) (e : ℕ → ℕ),
      (∀ j, j ≤ r → oc j = .failure false (e j)) →
      callClaude oc r =
        ⟨.error (e r), r + 1, (List.range r).map (fun j => 1000 * 2 ^ j)⟩) ∧
    (∀ (oc : ℕ → Attempt) (c : List Char) (i o e1 e2 : ℕ),
      oc 0 = .failure false e1 → oc 1 = .failure false e2 →
      oc 2 = .success c i o →
      callClaude oc 2 = ⟨.ok ⟨c, i, o⟩, 3, [1000, 2000]⟩) ∧
    (∀ (oc : ℕ → Attempt) (e : ℕ), oc 0 = .failure true e →
      callClaude oc 2 = ⟨.error e, 1, []⟩) := by
  have hsucc : ∀ (oc : ℕ → Attempt) (r k : ℕ) (c : List Char) (i o : ℕ), k ≤ r →
      (∀ j, j < k → ∃ e', oc j = .failure false e') →
      oc k = .success c i o →
      callClaude oc r =
        ⟨.ok ⟨c, i, o⟩, k + 1, (List.range k).map (fun j => 1000 * 2 ^ j)⟩ := by
    intro oc r k c i o hk hfail hs
    have := callClaudeLoop_success oc r c i o k 0 (r + 1) 0 (by omega)
      (by simpa using hfail) (by simpa using hs) (by omega)
    simpa [callClaude] using this
  have hfatal : ∀ (oc : ℕ → Attempt) (r k e : ℕ), k ≤ r →
      (∀ j, j < k → ∃ e', oc j = .failure false e') →
      oc k = .failure true e →
      callClaude oc r =
        ⟨.error e, k + 1, (List.range k).map (fun j => 1000 * 2 ^ j)⟩ := by
    intro oc r k e hk hfail hf
    have := callClaudeLoop_fatal oc r e k 0 (r + 1) 0 (by omega)
      (by simpa using hfail) (by simpa using hf) (by omega)
    simpa [callClaude] using this
  have hexh : ∀ (oc : ℕ → Attempt) (r : ℕ) (e : ℕ → ℕ),
      (∀ j, j ≤ r → oc j = .failure false (e j)) →
      callClaude oc r =
        ⟨.error (e r), r + 1, (List.range r).map (fun j => 1000 * 2 ^ j)⟩ := by
    intro oc r e hfail
    have := callClaudeLoop_exhaust oc r e r 0 0 (by omega)
      (fun j hj => by simpa using hfail j (by omega))
    simpa [callClaude] using this
  refine ⟨fun oc r => callClaudeLoop_attempts_le oc r (r + 1) 0 0,
    hfatal, hsucc, hexh, ?_, ?_⟩
  · intro oc c i o e1 e2 h0 h1 h2
    have := hsucc oc 2 2 c i o (by omega)
      (fun j hj => by
        interval_cases j
        · exact ⟨e1, h0⟩
        · exact ⟨e2, h1⟩)
      h2
    rw [this]
    norm_num [List.range_succ]
  · intro oc e h0
    exact hfatal oc 2 0 e (by omega) (fun j hj => absurd hj (by omega)) h0

/-- Witness for C7 at a concrete input: an environment failing fatally on
the first attempt yields the error with one attempt and no sleeps. -/
theorem claim_C7_retry_loop_witness :
    callClaude (fun _ => Attempt.failure true 5) 2 =
      ⟨.error 5, 1, []⟩ :=
  claim_C7_retry_loop.2.2.2.2.2 (fun _ => Attempt.failure true 5) 5 rfl

/-! ## Performance auditor (src/src/lib/ai/scraper.ts, analyzer part,
lines 273-457)

`analyzeUrl` issues the mobile and desktop audit requests
(`fetchPageSpeedData`, which catches every failure and returns null) and
reduces them.  The two fetch results are the environment, modelled as
`Option PSData`; `audits[key]?.score` can be missing (`none`), null
(`some none`) or a number (`some (some q)`). -/

/-- Issue severity tiers. -/
inductive Severity where
  | high
  | medium
  | low
deriving DecidableEq, Repr

/-- One categorized issue. -/
structure Issue where
  category : List Char
  severity : Severity
  message : List Char
  recommendation : Option (List Char)
deriving DecidableEq, Repr

/-- `lighthouseResult.categories` sub-scores (0-1 floats). -/
structure LighthouseCategories where
  performance : Option ℚ
  accessibility : Option ℚ
  seo : Option ℚ
  bestPractices : Option ℚ

/-- One PageSpeed response body: the category scores (absent when
`lighthouseResult.categories` is missing) and the named sub-audits. -/
structure PSData where
  categories : Option LighthouseCategories
  audits : List Char → Option (Option ℚ)

/-- `Math.round` (half away from zero is irrelevant here: JS rounds half
up, `floor (q + 1/2)`). -/
def jsRound (q : ℚ) : ℤ := ⌊q + 1/2⌋

/-- The four extracted 0-100 Lighthouse scores. -/
structure LHScores where
  performance : Option ℤ
  accessibility : Option ℤ
  seo : Option ℤ
  bestPractices : Option ℤ
deriving DecidableEq, Repr

/-- `extractLighthouseScores`. -/
def extractLighthouseScores (data : Option PSData) : LHScores :=
  match data with
  | none => ⟨none, none, none, none⟩
  | some d =>
      match d.categories with
      | none => ⟨none, none, none, none⟩
      | some c =>
          ⟨c.performance.map (fun q => jsRound (q * 100)),
           c.accessibility.map (fun q => jsRound (q * 100)),
           c.seo.map (fun q => jsRound (q * 100)),
           c.bestPractices.map (fun q => jsRound (q * 100))⟩

/-- The reduced analysis result. -/
structure AnalysisResult where
  performance : Option ℤ
  accessibility : Option ℤ
  mobile : Option ℤ
  seo : Option ℤ
  security : Option ℤ
  technical : Option ℤ
  rawData : Option PSData × Option PSData
  issues : List Issue

/-- `analyzeUrl`, as a function of the two audit-request results. -/
def analyzeUrl (mobileData desktopData : Option PSData) : AnalysisResult :=
  let mobileScores := extractLighthouseScores mobileData
  let desktopScores := extractLighthouseScores desktopData
  let mobileScore : Option ℤ :=
    match mobileScores.performance with
    | some p =>
        some (jsRound ((((p : ℚ) + ((desktopScores.performance.getD 0 : ℤ) : ℚ)) / 2)
          * (8/10) + (p : ℚ) * (2/10)))
    | none => none
  let audits : List Char → Option (Option ℚ) :=
    match mobileData with
    | some d => d.audits
    | none => fun _ => none
  let issues : List Issue :=
    (if audits (String.toList "viewport") = some (some 0) then
      [⟨String.toList "mobile", .high, String.toList "Missing viewport meta tag",
        some (String.toList "Add a viewport meta tag")⟩] else []) ++
    (if (match audits (String.toList "tap-targets") with
         | some (some x) => decide (x < 9/10)
         | _ => false) then
      [⟨String.toList "mobile", .medium, String.toList "Touch targets too small",
        some (String.toList "Ensure buttons and links are at least 48x48px")⟩]
     else []) ++
    (if (match audits (String.toList "color-contrast") with
         | some (some x) => decide (x < 1)
         | _ => false) then
      [⟨String.toList "accessibility", .high,
        String.toList "Insufficient color contrast",
        some (String.toList "Ensure text has at least 4.5:1 contrast ratio")⟩]
     else []) ++
    (if audits (String.toList "is-on-https") = some (some 0) then
      [⟨String.toList "security", .high, String.toList "Site not served over HTTPS",
        some (String.toList "Enable HTTPS for your site")⟩] else []) ++
    (if audits (String.toList "meta-description") = some (some 0) then
      [⟨String.toList "seo", .medium, String.toList "Missing meta description",
        some (String.toList "Add a meta description to improve search visibility")⟩]
     else []) ++
    (if audits (String.toList "document-title") = some (some 0) then
      [⟨String.toList "seo", .medium, String.toList "Missing page title",
        some (String.toList "Add a title tag to your page")⟩] else [])
  let technicalChecks : List ℚ :=
    [((audits (String.toList "errors-in-console")).bind id).getD 1,
     ((audits (String.toList "valid-source-maps")).bind id).getD 1,
     ((audits (String.toList "no-unload-listeners")).bind id).getD 1]
  let technicalScore : ℤ :=
    jsRound (technicalChecks.sum / (technicalChecks.length : ℚ) * 100)
  let securityScore : ℤ :=
    if audits (String.toList "is-on-https") = some (some 1) then 100 else 0
  { performance := mobileScores.performance
    accessibility := mobileScores.accessibility
    mobile := mobileScore
    seo := mobileScores.seo
    security := some securityScore
    technical := some technicalScore
    rawData := (mobileData, desktopData)
    issues := issues }

/-- Counterexample to C8 as stated: when both audit requests fail, the
four Lighthouse-derived scores are null and the issues list is empty,
but `technical` is 100 (every check defaults to 1) and `security` is 0
(the HTTPS audit is absent) — not null. -/
theorem claim_C8_counterexample :
    (analyzeUrl none none).technical = some 100 ∧
    (analyzeUrl none none).security = some 0 := by
  constructor
  · show some (jsRound ((1 + (1 + (1 + 0))) / (3 : ℚ) * 100)) = some 100
    norm_num [jsRound]
  · rfl

/-- C8 as amended: on the run where both audit requests fail, the
reduced result has performance, accessibility, seo and mobile null and
no issues, while technical defaults to 100 and security to 0, and the
raw data records the two null responses.  (`analyzeUrl` is a total
function of the two fetch results — `fetchPageSpeedData` catches every
failure and returns null — so it never raises.) -/
theorem claim_C8_both_audits_fail_amended :
    analyzeUrl none none =
      { performance := none
        accessibility := none
        mobile := none
        seo := none
        security := some 0
        technical := some 100
        rawData := (none, none)
        issues := [] } := by
  have ht : (analyzeUrl none none).technical = some 100 := by
    show some (jsRound ((1 + (1 + (1 + 0))) / (3 : ℚ) * 100)) = some 100
    norm_num [jsRound]
  rw [show analyzeUrl none none =
    { performance := none, accessibility := none, mobile := none, seo := none,
      security := some 0, technical := (analyzeUrl none none).technical,
      rawData := (none, none), issues := [] } from rfl]
  rw [ht]

/-! ## Evaluation orchestrator (src/src/lib/export-evaluation.ts,
lines 620-724)

`runAIEvaluation` runs the audit and the scrape (both total — they catch
their own failures), builds the prompt, calls the generation client,
parses and validates the response, and returns the combined result; the
whole body sits in one try/catch whose catch-arm returns the failure
shape.  The audit result and the generation-call outcome are the
environment (the scrape and prompt build cannot throw and do not branch
the result shape). -/

/-- The flat 9-score block of a successful result. -/
structure AIScores where
  usability : ℚ
  value : ℚ
  features : ℚ
  polish : ℚ
  competition : ℚ
  market : ℚ
  monetization : ℚ
  maintenance : ℚ
  growth : ℚ
deriving DecidableEq, Repr

/-- The per-metric reasons plus the summary. -/
structure AIReasoning where
  usability : List Char
  value : List Char
  features : List Char
  polish : List Char
  competition : List Char
  market : List Char
  monetization : List Char
  maintenance : List Char
  growth : List Char
  summary : List Char
deriving DecidableEq, Repr

/-- The firstImpressions block passed through on success. -/
structure FirstImpressions where
  whatItDoes : List Char
  targetUser : List Char
  trustLevel : List Char
deriving DecidableEq, Repr

/-- The four audit scores echoed back on success. -/
structure PageSpeedSubset where
  performance : Option ℤ
  accessibility : Option ℤ
  seo : Option ℤ
  mobile : Option ℤ
deriving DecidableEq, Repr

/-- The orchestrator's result shape. -/
structure AIEvaluationResult where
  success : Bool
  scores : Option AIScores
  reasoning : Option AIReasoning
  firstImpressions : Option FirstImpressions
  recommendations : Option (List (List Char))
  pageSpeedData : Option PageSpeedSubset
  error : Option (List Char)
  tokenUsage : Option (ℕ × ℕ)

/-- The catch-arm result: success false, a non-null error message and
every data field null. -/
def failResult (msg : List Char) : AIEvaluationResult :=
  ⟨false, none, none, none, none, none, some msg, none⟩

/-- `parsed.<cat>.<key>.score` of a validated response (0 when absent,
which validation rules out). -/
def metricScoreOf (parsed : JsValue) (cat key : List Char) : ℚ :=
  match ((jsGetV parsed cat).bind (fun c => jsGetV c key)).bind
      (fun m => jsGetV m kScore) with
  | some (.number q) => q
  | _ => 0

/-- `parsed.<cat>.<key>.reason` of a validated response. -/
def metricReasonOf (parsed : JsValue) (cat key : List Char) : List Char :=
  match ((jsGetV parsed cat).bind (fun c => jsGetV c key)).bind
      (fun m => jsGetV m kReason) with
  | some (.str s) => s
  | _ => []

/-- A string property of a validated response. -/
def strFieldOf (v : JsValue) (key : List Char) : List Char :=
  match jsGetV v key with
  | some (.str s) => s
  | _ => []

/-- The 9 scores a successful run copies out of the response. -/
def extractScores (parsed : JsValue) : AIScores :=
  ⟨metricScoreOf parsed kProduct (String.toList "usability"),
   metricScoreOf parsed kProduct (String.toList "value"),
   metricScoreOf parsed kProduct (String.toList "features"),
   metricScoreOf parsed kProduct (String.toList "polish"),
   metricScoreOf parsed kProduct (String.toList "competition"),
   metricScoreOf parsed kBusiness (String.toList "market"),
   metricScoreOf parsed kBusiness (String.toList "monetization"),
   metricScoreOf parsed kBusiness (String.toList "maintenance"),
   metricScoreOf parsed kBusiness (String.toList "growth")⟩

/-- The 9 reasons plus summary a successful run copies out. -/
def extractReasoning (parsed : JsValue) : AIReasoning :=
  ⟨metricReasonOf parsed kProduct (String.toList "usability"),
   metricReasonOf parsed kProduct (String.toList "value"),
   metricReasonOf parsed kProduct (String.toList "features"),
   metricReasonOf parsed kProduct (String.toList "polish"),
   metricReasonOf parsed kProduct (String.toList "competition"),
   metricReasonOf parsed kBusiness (String.toList "market"),
   metricReasonOf parsed kBusiness (String.toList "monetization"),
   metricReasonOf parsed kBusiness (String.toList "maintenance"),
   metricReasonOf parsed kBusiness (String.toList "growth"),
   strFieldOf parsed kSummary⟩

/-- The firstImpressions block of a validated response. -/
def extractFirstImpressions (parsed : JsValue) : FirstImpressions :=
  match jsGetV parsed kFirstImpressions with
  | some fi => ⟨strFieldOf fi kWhatItDoes, strFieldOf fi kTargetUser,
      strFieldOf fi kTrustLevel⟩
  | none => ⟨[], [], []⟩

/-- The recommendations array of a validated response. -/
def extractRecommendations (parsed : JsValue) : List (List Char) :=
  match jsGetV parsed kRecommendations with
  | some (.arr items) => items.filterMap (fun it => match it with
      | .str s => some s
      | _ => none)
  | _ => []

/-- `runAIEvaluation`, as a function of the audit result and the
generation-call outcome; the parse and validation steps are the embedded
`parseJsonResponse` and `validateEvaluationResponse`. -/
def runAIEvaluation (pageSpeedData : AnalysisResult)
    (claudeOutcome : Except (List Char) ClaudeResponse) : AIEvaluationResult :=
  match claudeOutcome with
  | .error msg => failResult msg
  | .ok resp =>
      match parseJsonResponse resp.content with
      | .error msg => failResult msg
      | .ok parsed =>
          if validateEvaluationResponse parsed then
            { success := true
              scores := some (extractScores parsed)
              reasoning := some (extractReasoning parsed)
              firstImpressions := some (extractFirstImpressions parsed)
              recommendations := some (extractRecommendations parsed)
              pageSpeedData := some ⟨pageSpeedData.performance,
                pageSpeedData.accessibility, pageSpeedData.seo,
                pageSpeedData.mobile⟩
              error := none
              tokenUsage := some (resp.inputTokens, resp.outputTokens) }
          else failResult (String.toList "Invalid response structure from AI")

/-- C9: the orchestrator is a total function of its step outcomes (it
never throws past its boundary); any raise from the generation call, the
JSON parse or the validation yields success false with a non-null error
string and every data field null; and a success carries a null error,
the audit echo, the token counts and exactly the validated response's
nine scores and reasons. -/
theorem claim_C9_orchestrator_boundary :
    (∀ (ps : AnalysisResult) (outcome : Except (List Char) ClaudeResponse),
      (runAIEvaluation ps outcome).success = false →
        (runAIEvaluation ps outcome).error ≠ none ∧
        (runAIEvaluation ps outcome).scores = none ∧
        (runAIEvaluation ps outcome).reasoning = none ∧
        (runAIEvaluation ps outcome).firstImpressions = none ∧
        (runAIEvaluation ps outcome).recommendations = none ∧
        (runAIEvaluation ps outcome).pageSpeedData = none ∧
        (runAIEvaluation ps outcome).tokenUsage = none) ∧
    (∀ (ps : AnalysisResult) (msg : List Char),
      runAIEvaluation ps (.error msg) = failResult msg) ∧
    (∀ (ps : AnalysisResult) (resp : ClaudeResponse) (msg : List Char),
      parseJsonResponse resp.content = .error msg →
      runAIEvaluation ps (.ok resp) = failResult msg) ∧
    (∀ (ps : AnalysisResult) (resp : ClaudeResponse) (parsed : JsValue),
      parseJsonResponse resp.content = .ok parsed →
      validateEvaluationResponse parsed = false →
      runAIEvaluation ps (.ok resp) =
        failResult (String.toList "Invalid response structure from AI")) ∧
    (∀ (ps : AnalysisResult) (outcome : Except (List Char) ClaudeResponse),
      (runAIEvaluation ps outcome).success = true →
        (runAIEvaluation ps outcome).error = none ∧
        ∃ resp parsed, outcome = .ok resp ∧
          parseJsonResponse resp.content = .ok parsed ∧
          validateEvaluationResponse parsed = true ∧
          (runAIEvaluation ps outcome).scores = some (extractScores parsed) ∧
          (runAIEvaluation ps outcome).reasoning =
            some (extractReasoning parsed) ∧
          (runAIEvaluation ps outcome).tokenUsage =
            some (resp.inputTokens, resp.outputTokens)) := by
  refine ⟨?_, ?_, ?_, ?_, ?_⟩
  · intro ps outcome hf
    cases outcome with
    | error msg => simp [runAIEvaluation, failResult]
    | ok resp =>
        cases hp : parseJsonResponse resp.content with
        | error msg => simp [runAIEvaluation, failResult, hp]
        | ok parsed =>
            cases hv : validateEvaluationResponse parsed with
            | false => simp [runAIEvaluation, failResult, hp, hv]
            | true => simp [runAIEvaluation, hp, hv] at hf
  · intro ps msg
    rfl
  · intro ps resp msg hp
    simp [runAIEvaluation, hp]
  · intro ps resp parsed hp hv
    simp [runAIEvaluation, hp, hv]
  · intro ps outcome hs
    cases outcome with
    | error msg => simp [runAIEvaluation, failResult] at hs
    | ok resp =>
        cases hp : parseJsonResponse resp.content with
        | error msg => simp [runAIEvaluation, failResult, hp] at hs
        | ok parsed =>
            cases hv : validateEvaluationResponse parsed with
            | false => simp [runAIEvaluation, failResult, hp, hv] at hs
            | true =>
                refine ⟨by simp [runAIEvaluation, hp, hv],
                  resp, parsed, rfl, hp, hv, ?_, ?_, ?_⟩ <;>
                  simp [runAIEvaluation, hp, hv]

/-- Witness for C9 at a concrete input: a failed generation call yields
the all-null failure shape with the error string attached. -/
theorem claim_C9_orchestrator_boundary_witness :
    (runAIEvaluation (analyzeUrl none none)
        (.error (String.toList "API error"))).error ≠ none ∧
      (runAIEvaluation (analyzeUrl none none)
        (.error (String.toList "API error"))).scores = none ∧
      (runAIEvaluation (analyzeUrl none none)
        (.error (String.toList "API error"))).reasoning = none ∧
      (runAIEvaluation (analyzeUrl none none)
        (.error (String.toList "API error"))).firstImpressions = none ∧
      (runAIEvaluation (analyzeUrl none none)
        (.error (String.toList "API error"))).recommendations = none ∧
      (runAIEvaluation (analyzeUrl none none)
        (.error (String.toList "API error"))).pageSpeedData = none ∧
      (runAIEvaluation (analyzeUrl none none)
        (.error (String.toList "API error"))).tokenUsage = none :=
  claim_C9_orchestrator_boundary.1 (analyzeUrl none none)
    (.error (String.toList "API error")) rfl

end MF